import Mathlib

/-!
Verification development for the Two Brush Sliders plugin
(src/two_brush_sliders/two_brush_sliders.py).

The XML-handling code (`_get_brush_hardness`, `_set_brush_hardness`,
`_find_mask_generator`), the slider geometry (`_updateValueFromMouse`),
the size-slider synchronization (`_update_size_slider`,
`_validate_max_brush_size`, `load_config`) and the debounced config
saving (`save_config`, `_do_save_config`) are embedded as pure Lean
functions over explicit state.  Python floats are modelled as exact
rationals except where a claim hinges on IEEE-754 rounding, in which
case double-precision rounding is modelled exactly (see `roundDouble`).
-/

set_option linter.unusedVariables false

namespace TwoBrushSliders

/-- Attribute values of an XML element.  ElementTree stores every attribute
as a string; `num q` models a string that Python `float` parses to the exact
value `q` (such as the output of `str` on a float, which round-trips
exactly), while `str s` models a string that `float` rejects with a
`ValueError`. -/
inductive AttrVal : Type where
| str (s : String)
| num (q : ℚ)
deriving DecidableEq

/-- Python `float(attribute)`: succeeds exactly on numeric strings. -/
def floatVal : AttrVal → Option ℚ
| .num q => some q
| .str _ => none

/-- ElementTree `element.get(k)`: first binding of key `k`. -/
def attrGet (k : String) : List (String × AttrVal) → Option AttrVal
| [] => none
| (k', v) :: rest => if k' = k then some v else attrGet k rest

/-- ElementTree `element.set(k, v)`: replace the binding of `k`, or append. -/
def attrSet (k : String) (v : AttrVal) : List (String × AttrVal) → List (String × AttrVal)
| [] => [(k, v)]
| (k', v') :: rest => if k' = k then (k, v) :: rest else (k', v') :: attrSet k v rest

theorem attrGet_attrSet_self (k : String) (v : AttrVal) (l : List (String × AttrVal)) :
    attrGet k (attrSet k v l) = some v := by
  induction l with
  | nil => simp [attrGet, attrSet]
  | cons p rest ih =>
    obtain ⟨k', v'⟩ := p
    by_cases h : k' = k <;> simp [attrGet, attrSet, h, ih]

theorem attrGet_attrSet_ne (k k' : String) (hk : k ≠ k') (v : AttrVal)
    (l : List (String × AttrVal)) :
    attrGet k' (attrSet k v l) = attrGet k' l := by
  induction l with
  | nil => simp [attrGet, attrSet, hk]
  | cons p rest ih =>
    obtain ⟨k₀, v₀⟩ := p
    by_cases h : k₀ = k
    · subst h
      simp [attrGet, attrSet, hk]
    · simp [attrGet, attrSet, h, ih]

/-- XML element: tag, attributes, text, children.

`text` models the ElementTree text content as this plugin uses it:
`none` stands for missing or empty text (falsy in Python, `if not
param.text`); `some none` stands for a nonempty string that is not
well-formed XML, so that `ET.fromstring` raises on it; `some (some e)`
stands for the serialization of the tree `e` (the `ET.tostring` /
`ET.fromstring` round-trip is treated as exact). -/
inductive XmlElem : Type where
| node (tag : String) (attrs : List (String × AttrVal))
    (text : Option (Option XmlElem)) (childs : List XmlElem)

def XmlElem.tag : XmlElem → String
| .node t _ _ _ => t

def XmlElem.attrs : XmlElem → List (String × AttrVal)
| .node _ a _ _ => a

def XmlElem.text : XmlElem → Option (Option XmlElem)
| .node _ _ x _ => x

def XmlElem.childs : XmlElem → List XmlElem
| .node _ _ _ cs => cs

/-- Replace the text of an element (`param.text = ...`). -/
def XmlElem.withText (x : Option (Option XmlElem)) : XmlElem → XmlElem
| .node t a _ cs => .node t a x cs

/-- Tag test used by the first two lookup phases of `_find_mask_generator`:
`find('MaskGenerator')` and `find('.//MaskGenerator')` match the exact tag. -/
def tagIsMG (t : String) : Bool := t = "MaskGenerator"

/-- Tag test of the third lookup phase: `child.tag.endswith('MaskGenerator')`,
as a suffix test on the character sequences. -/
def tagEndsMG (t : String) : Bool := List.isSuffixOf ("MaskGenerator".data) t.data

/-- Index of the first direct child whose tag satisfies `pr`
(`brushdef.find('MaskGenerator')`). -/
def findChildIdx (pr : String → Bool) : List XmlElem → Option ℕ
| [] => none
| c :: cs => if pr c.tag then some 0 else (findChildIdx pr cs).map (· + 1)

mutual
/-- Path (child-index list, `[]` meaning the element itself) of the first
node in document (preorder) order, the element itself included, whose tag
satisfies `pr`. -/
def findPre (pr : String → Bool) : XmlElem → Option (List ℕ)
| .node t _ _ cs => if pr t then some [] else (findPreL pr cs).map (fun ip => ip.1 :: ip.2)
/-- As `findPre` over a child list: index of the child together with the
path inside it. -/
def findPreL (pr : String → Bool) : List XmlElem → Option (ℕ × List ℕ)
| [] => none
| c :: cs =>
  match findPre pr c with
  | some p => some (0, p)
  | none => (findPreL pr cs).map (fun ip => (ip.1 + 1, ip.2))
end

mutual
/-- Node at a child-index path. -/
def getPath : List ℕ → XmlElem → Option XmlElem
| [], e => some e
| i :: p, .node _ _ _ cs => getPathL i p cs
def getPathL : ℕ → List ℕ → List XmlElem → Option XmlElem
| _, _, [] => none
| 0, p, c :: _ => getPath p c
| Nat.succ i, p, _ :: cs => getPathL i p cs
end

mutual
/-- Rewrite the node at a child-index path with `f` (in-place mutation of the
element returned by `_find_mask_generator`); identity on an invalid path. -/
def setAt (f : XmlElem → XmlElem) : List ℕ → XmlElem → XmlElem
| [], e => f e
| i :: p, .node t a x cs => .node t a x (setAtL f i p cs)
def setAtL (f : XmlElem → XmlElem) : ℕ → List ℕ → List XmlElem → List XmlElem
| _, _, [] => []
| 0, p, c :: cs => setAt f p c :: cs
| Nat.succ i, p, c :: cs => c :: setAtL f i p cs
end

mutual
/-- Whether some node of the tree, the root included, has a tag satisfying
`pr`. -/
def hasPred (pr : String → Bool) : XmlElem → Bool
| .node t _ _ cs => pr t || hasPredL pr cs
def hasPredL (pr : String → Bool) : List XmlElem → Bool
| [] => false
| c :: cs => hasPred pr c || hasPredL pr cs
end

/-- Path located by `_find_mask_generator` (two exact-tag `find` calls, then
the suffix-matching `iter()` sweep that also visits the root). -/
def findMGPath (e : XmlElem) : Option (List ℕ) :=
  match findChildIdx tagIsMG e.childs with
  | some i => some [i]
  | none =>
    match findPreL tagIsMG e.childs with
    | some ip => some (ip.1 :: ip.2)
    | none => findPre tagEndsMG e

/-- `_find_mask_generator`: the element at the located path. -/
def find_mask_generator (e : XmlElem) : Option XmlElem :=
  (findMGPath e).bind (fun p => getPath p e)

mutual
theorem xmlIndE (P : XmlElem → Prop) (Q : List XmlElem → Prop)
    (h1 : ∀ t a x cs, Q cs → P (XmlElem.node t a x cs))
    (h2 : Q []) (h3 : ∀ c cs, P c → Q cs → Q (c :: cs)) : ∀ e, P e
| .node t a x cs => h1 t a x cs (xmlIndL P Q h1 h2 h3 cs)
theorem xmlIndL (P : XmlElem → Prop) (Q : List XmlElem → Prop)
    (h1 : ∀ t a x cs, Q cs → P (XmlElem.node t a x cs))
    (h2 : Q []) (h3 : ∀ c cs, P c → Q cs → Q (c :: cs)) : ∀ cs, Q cs
| [] => h2
| c :: cs => h3 c cs (xmlIndE P Q h1 h2 h3 c) (xmlIndL P Q h1 h2 h3 cs)
end

theorem findPre_eq (pr : String → Bool) (e : XmlElem) :
    findPre pr e =
      if pr e.tag then some [] else (findPreL pr e.childs).map (fun ip => ip.1 :: ip.2) := by
  cases e
  simp [findPre, XmlElem.tag, XmlElem.childs]

theorem hasPred_eq (pr : String → Bool) (e : XmlElem) :
    hasPred pr e = (pr e.tag || hasPredL pr e.childs) := by
  cases e
  simp [hasPred, XmlElem.tag, XmlElem.childs]

theorem tagIsMG_imp (t : String) (h : tagIsMG t = true) : tagEndsMG t = true := by
  have ht : t = "MaskGenerator" := by
    simpa [tagIsMG] using h
  subst ht
  decide

/-- Soundness of the preorder search: a found path leads to a node whose tag
satisfies the predicate. -/
theorem findPre_sound (pr : String → Bool) :
    (∀ e p, findPre pr e = some p → ∃ n, getPath p e = some n ∧ pr n.tag = true)
    ∧ (∀ cs ip, findPreL pr cs = some ip →
        ∃ n, getPathL ip.1 ip.2 cs = some n ∧ pr n.tag = true) := by
  have h1 : ∀ t a x cs,
      (∀ ip, findPreL pr cs = some ip → ∃ n, getPathL ip.1 ip.2 cs = some n ∧ pr n.tag = true) →
      (∀ p, findPre pr (XmlElem.node t a x cs) = some p →
        ∃ n, getPath p (XmlElem.node t a x cs) = some n ∧ pr n.tag = true) := by
    intro t a x cs ih p hp
    simp only [findPre] at hp
    by_cases hprt : pr t
    · simp only [hprt, if_pos] at hp
      obtain rfl : [] = p := by simpa using hp
      exact ⟨XmlElem.node t a x cs, rfl, by simpa [XmlElem.tag] using hprt⟩
    · simp only [hprt, if_neg, Bool.false_eq_true, not_false_iff] at hp
      rw [Option.map_eq_some'] at hp
      obtain ⟨ip, hip, rfl⟩ := hp
      obtain ⟨n, hg, ht⟩ := ih ip hip
      exact ⟨n, by simpa [getPath] using hg, ht⟩
  have h2 : ∀ (ip : ℕ × List ℕ), findPreL pr [] = some ip →
      ∃ n, getPathL ip.1 ip.2 [] = some n ∧ pr n.tag = true := by
    intro ip hip
    simp [findPreL] at hip
  have h3 : ∀ c cs,
      (∀ p, findPre pr c = some p → ∃ n, getPath p c = some n ∧ pr n.tag = true) →
      (∀ ip, findPreL pr cs = some ip → ∃ n, getPathL ip.1 ip.2 cs = some n ∧ pr n.tag = true) →
      (∀ ip, findPreL pr (c :: cs) = some ip →
        ∃ n, getPathL ip.1 ip.2 (c :: cs) = some n ∧ pr n.tag = true) := by
    intro c cs ihc ihcs ip hip
    simp only [findPreL] at hip
    cases hfc : findPre pr c with
    | some p =>
      rw [hfc] at hip
      obtain rfl : (0, p) = ip := by simpa using hip
      obtain ⟨n, hg, ht⟩ := ihc p hfc
      exact ⟨n, by simpa [getPathL] using hg, ht⟩
    | none =>
      rw [hfc] at hip
      rw [Option.map_eq_some'] at hip
      obtain ⟨ip', hip', rfl⟩ := hip
      obtain ⟨n, hg, ht⟩ := ihcs ip' hip'
      exact ⟨n, by simpa [getPathL] using hg, ht⟩
  exact ⟨xmlIndE _ _ h1 h2 h3, xmlIndL _ _ h1 h2 h3⟩

/-- Completeness of the preorder search: no path is found exactly when no
node (the root included) has a tag satisfying the predicate. -/
theorem findPre_none_iff (pr : String → Bool) :
    (∀ e, findPre pr e = none ↔ hasPred pr e = false)
    ∧ (∀ cs, findPreL pr cs = none ↔ hasPredL pr cs = false) := by
  have h1 : ∀ t a x cs, (findPreL pr cs = none ↔ hasPredL pr cs = false) →
      (findPre pr (XmlElem.node t a x cs) = none ↔
        hasPred pr (XmlElem.node t a x cs) = false) := by
    intro t a x cs ih
    simp only [findPre, hasPred]
    by_cases hprt : pr t
    · simp [hprt]
    · simp [hprt, Option.map_eq_none', ih]
  have h2 : findPreL pr [] = none ↔ hasPredL pr [] = false := by
    simp [findPreL, hasPredL]
  have h3 : ∀ c cs, (findPre pr c = none ↔ hasPred pr c = false) →
      (findPreL pr cs = none ↔ hasPredL pr cs = false) →
      (findPreL pr (c :: cs) = none ↔ hasPredL pr (c :: cs) = false) := by
    intro c cs ihc ihcs
    simp only [findPreL, hasPredL]
    cases hfc : findPre pr c with
    | some p =>
      have : hasPred pr c = true := by
        cases hh : hasPred pr c
        · rw [ihc.mpr hh] at hfc
          exact absurd hfc (by simp)
        · rfl
      simp [this]
    | none =>
      simp [ihc.mp hfc, Option.map_eq_none', ihcs]
  exact ⟨xmlIndE _ _ h1 h2 h3, xmlIndL _ _ h1 h2 h3⟩

theorem findChildIdx_sound (pr : String → Bool) (cs : List XmlElem) :
    ∀ i, findChildIdx pr cs = some i →
      ∃ n, getPathL i [] cs = some n ∧ pr n.tag = true := by
  induction cs with
  | nil => intro i hi; simp [findChildIdx] at hi
  | cons c cs ih =>
    intro i hi
    simp only [findChildIdx] at hi
    by_cases hc : pr c.tag
    · simp only [hc, if_pos] at hi
      obtain rfl : 0 = i := by simpa using hi
      exact ⟨c, by simp [getPathL, getPath], hc⟩
    · simp only [hc, if_neg, Bool.false_eq_true, not_false_iff] at hi
      rw [Option.map_eq_some'] at hi
      obtain ⟨i', hi', rfl⟩ := hi
      obtain ⟨n, hg, ht⟩ := ih i' hi'
      exact ⟨n, by simpa [getPathL] using hg, ht⟩

theorem findChildIdx_mem (pr : String → Bool) (cs : List XmlElem) :
    ∀ i, findChildIdx pr cs = some i → ∃ c ∈ cs, pr c.tag = true := by
  induction cs with
  | nil => intro i hi; simp [findChildIdx] at hi
  | cons c cs ih =>
    intro i hi
    simp only [findChildIdx] at hi
    by_cases hc : pr c.tag
    · exact ⟨c, by simp, hc⟩
    · simp only [hc, if_neg, Bool.false_eq_true, not_false_iff] at hi
      rw [Option.map_eq_some'] at hi
      obtain ⟨i', hi', rfl⟩ := hi
      obtain ⟨c', hmem, hc'⟩ := ih i' hi'
      exact ⟨c', by simp [hmem], hc'⟩

theorem hasPredL_of_mem (pr : String → Bool) (cs : List XmlElem) (c : XmlElem)
    (hmem : c ∈ cs) (hc : pr c.tag = true) : hasPredL pr cs = true := by
  induction cs with
  | nil => simp at hmem
  | cons c' cs ih =>
    simp only [hasPredL]
    rcases List.mem_cons.mp hmem with h | h
    · subst h
      rw [hasPred_eq, hc]
      simp
    · simp [ih h]

/-- A node rewrite that changes neither the tag nor the children (such as
setting attributes): the tree searches cannot see it. -/
def ShapePreserving (f : XmlElem → XmlElem) : Prop :=
  ∀ e, (f e).tag = e.tag ∧ (f e).childs = e.childs

theorem getPath_cons (i : ℕ) (p : List ℕ) (e : XmlElem) :
    getPath (i :: p) e = getPathL i p e.childs := by
  cases e
  simp [getPath, XmlElem.childs]

theorem setAt_tag (f : XmlElem → XmlElem) (hf : ShapePreserving f) (p : List ℕ)
    (e : XmlElem) : (setAt f p e).tag = e.tag := by
  cases p with
  | nil => simp only [setAt]; exact (hf e).1
  | cons i p' => cases e; simp [setAt, XmlElem.tag]

theorem findChildIdx_setAtL (pr : String → Bool) (f : XmlElem → XmlElem)
    (hf : ShapePreserving f) (cs : List XmlElem) :
    ∀ i p, findChildIdx pr (setAtL f i p cs) = findChildIdx pr cs := by
  induction cs with
  | nil => intro i p; simp [setAtL]
  | cons c cs ih =>
    intro i p
    cases i with
    | zero => simp [setAtL, findChildIdx, setAt_tag f hf p c, ih]
    | succ i => simp [setAtL, findChildIdx, ih]

/-- The preorder search does not see a shape-preserving rewrite anywhere in
the tree. -/
theorem findPre_setAt (pr : String → Bool) (f : XmlElem → XmlElem)
    (hf : ShapePreserving f) :
    (∀ e p, findPre pr (setAt f p e) = findPre pr e)
    ∧ (∀ cs i p, findPreL pr (setAtL f i p cs) = findPreL pr cs) := by
  have h1 : ∀ t a x cs,
      (∀ i p, findPreL pr (setAtL f i p cs) = findPreL pr cs) →
      (∀ p, findPre pr (setAt f p (XmlElem.node t a x cs)) =
        findPre pr (XmlElem.node t a x cs)) := by
    intro t a x cs ih p
    cases p with
    | nil =>
      show findPre pr (f (XmlElem.node t a x cs)) = _
      rw [findPre_eq, (hf (XmlElem.node t a x cs)).1, (hf (XmlElem.node t a x cs)).2,
        ← findPre_eq]
    | cons i p' =>
      simp only [setAt, findPre, ih]
  have h2 : ∀ (i : ℕ) (p : List ℕ), findPreL pr (setAtL f i p []) = findPreL pr [] := by
    intro i p
    simp [setAtL]
  have h3 : ∀ c cs,
      (∀ p, findPre pr (setAt f p c) = findPre pr c) →
      (∀ i p, findPreL pr (setAtL f i p cs) = findPreL pr cs) →
      (∀ i p, findPreL pr (setAtL f i p (c :: cs)) = findPreL pr (c :: cs)) := by
    intro c cs ihc ihcs i p
    cases i with
    | zero => simp only [setAtL, findPreL, ihc p]
    | succ i => simp only [setAtL, findPreL, ihcs i p]
  exact ⟨xmlIndE _ _ h1 h2 h3, xmlIndL _ _ h1 h2 h3⟩

/-- Reading a path after rewriting at that same path yields the rewritten
node. -/
theorem getPath_setAt (f : XmlElem → XmlElem) :
    (∀ e p, getPath p (setAt f p e) = (getPath p e).map f)
    ∧ (∀ cs i p, getPathL i p (setAtL f i p cs) = (getPathL i p cs).map f) := by
  have h1 : ∀ t a x cs,
      (∀ i p, getPathL i p (setAtL f i p cs) = (getPathL i p cs).map f) →
      (∀ p, getPath p (setAt f p (XmlElem.node t a x cs)) =
        (getPath p (XmlElem.node t a x cs)).map f) := by
    intro t a x cs ih p
    cases p with
    | nil => simp [setAt, getPath]
    | cons i p' => simp only [setAt, getPath, ih]
  have h2 : ∀ (i : ℕ) (p : List ℕ),
      getPathL i p (setAtL f i p []) = (getPathL i p []).map f := by
    intro i p
    simp [setAtL, getPathL]
  have h3 : ∀ c cs,
      (∀ p, getPath p (setAt f p c) = (getPath p c).map f) →
      (∀ i p, getPathL i p (setAtL f i p cs) = (getPathL i p cs).map f) →
      (∀ i p, getPathL i p (setAtL f i p (c :: cs)) = (getPathL i p (c :: cs)).map f) := by
    intro c cs ihc ihcs i p
    cases i with
    | zero => simp only [setAtL, getPathL, ihc p]
    | succ i => simp only [setAtL, getPathL, ihcs i p]
  exact ⟨xmlIndE _ _ h1 h2 h3, xmlIndL _ _ h1 h2 h3⟩

/-- The path located by `_find_mask_generator` is stable under a
shape-preserving rewrite anywhere. -/
theorem findMGPath_setAt (f : XmlElem → XmlElem) (hf : ShapePreserving f)
    (e : XmlElem) (p : List ℕ) : findMGPath (setAt f p e) = findMGPath e := by
  cases p with
  | nil =>
    have hfp : findPre tagEndsMG (setAt f [] e) = findPre tagEndsMG e :=
      (findPre_setAt tagEndsMG f hf).1 e []
    have hch : (setAt f [] e).childs = e.childs := by
      simp only [setAt]
      exact (hf e).2
    unfold findMGPath
    rw [hch, hfp]
  | cons i p' =>
    cases e with
    | node t a x cs =>
      unfold findMGPath
      have hc : (setAt f (i :: p') (XmlElem.node t a x cs)).childs = setAtL f i p' cs := by
        simp [setAt, XmlElem.childs]
      rw [hc, findChildIdx_setAtL tagIsMG f hf cs i p',
        (findPre_setAt tagIsMG f hf).2 cs i p',
        (findPre_setAt tagEndsMG f hf).1 (XmlElem.node t a x cs) (i :: p'),
        XmlElem.childs]

/-- Monotonicity of the tag-existence test in the predicate. -/
theorem hasPred_mono (p1 p2 : String → Bool) (himp : ∀ t, p1 t = true → p2 t = true) :
    (∀ e, hasPred p2 e = false → hasPred p1 e = false)
    ∧ (∀ cs, hasPredL p2 cs = false → hasPredL p1 cs = false) := by
  have h1 : ∀ t a x cs, (hasPredL p2 cs = false → hasPredL p1 cs = false) →
      (hasPred p2 (XmlElem.node t a x cs) = false →
        hasPred p1 (XmlElem.node t a x cs) = false) := by
    intro t a x cs ih h
    simp only [hasPred, Bool.or_eq_false_iff] at h ⊢
    refine ⟨?_, ih h.2⟩
    cases hp : p1 t
    · rfl
    · rw [himp t hp] at h
      exact absurd h.1 (by simp)
  have h2 : hasPredL p2 [] = false → hasPredL p1 [] = false := by
    intro h
    simp [hasPredL]
  have h3 : ∀ c cs, (hasPred p2 c = false → hasPred p1 c = false) →
      (hasPredL p2 cs = false → hasPredL p1 cs = false) →
      (hasPredL p2 (c :: cs) = false → hasPredL p1 (c :: cs) = false) := by
    intro c cs ihc ihcs h
    simp only [hasPredL, Bool.or_eq_false_iff] at h ⊢
    exact ⟨ihc h.1, ihcs h.2⟩
  exact ⟨xmlIndE _ _ h1 h2 h3, xmlIndL _ _ h1 h2 h3⟩

/-- The located path leads to a node whose tag ends with `MaskGenerator`. -/
theorem findMGPath_sound (e : XmlElem) (p : List ℕ) (h : findMGPath e = some p) :
    ∃ n, getPath p e = some n ∧ tagEndsMG n.tag = true := by
  unfold findMGPath at h
  cases h1 : findChildIdx tagIsMG e.childs with
  | some i =>
    rw [h1] at h
    obtain rfl : [i] = p := by simpa using h
    obtain ⟨n, hg, ht⟩ := findChildIdx_sound tagIsMG e.childs i h1
    exact ⟨n, by rw [getPath_cons]; exact hg, tagIsMG_imp _ ht⟩
  | none =>
    rw [h1] at h
    cases h2 : findPreL tagIsMG e.childs with
    | some ip =>
      rw [h2] at h
      obtain rfl : ip.1 :: ip.2 = p := by simpa using h
      obtain ⟨n, hg, ht⟩ := (findPre_sound tagIsMG).2 e.childs ip h2
      exact ⟨n, by rw [getPath_cons]; exact hg, tagIsMG_imp _ ht⟩
    | none =>
      rw [h2] at h
      exact (findPre_sound tagEndsMG).1 e p h

/-- No path is located exactly when no node of the tree, the root included,
has a tag ending with `MaskGenerator`. -/
theorem findMGPath_none_iff (e : XmlElem) :
    findMGPath e = none ↔ hasPred tagEndsMG e = false := by
  constructor
  · intro h
    unfold findMGPath at h
    cases h1 : findChildIdx tagIsMG e.childs with
    | some i => rw [h1] at h; exact absurd h (by simp)
    | none =>
      rw [h1] at h
      cases h2 : findPreL tagIsMG e.childs with
      | some ip => rw [h2] at h; exact absurd h (by simp)
      | none =>
        rw [h2] at h
        exact ((findPre_none_iff tagEndsMG).1 e).mp h
  · intro h
    have hL : hasPredL tagEndsMG e.childs = false := by
      rw [hasPred_eq, Bool.or_eq_false_iff] at h
      exact h.2
    have h3 : findPre tagEndsMG e = none := ((findPre_none_iff tagEndsMG).1 e).mpr h
    have hLis : hasPredL tagIsMG e.childs = false :=
      (hasPred_mono tagIsMG tagEndsMG tagIsMG_imp).2 e.childs hL
    have h2 : findPreL tagIsMG e.childs = none :=
      ((findPre_none_iff tagIsMG).2 e.childs).mpr hLis
    have h1 : findChildIdx tagIsMG e.childs = none := by
      cases hc : findChildIdx tagIsMG e.childs with
      | none => rfl
      | some i =>
        obtain ⟨c, hmem, ht⟩ := findChildIdx_mem tagIsMG e.childs i hc
        have : hasPredL tagEndsMG e.childs = true :=
          hasPredL_of_mem tagEndsMG e.childs c hmem (tagIsMG_imp _ ht)
        rw [this] at hL
        exact absurd hL (by simp)
    unfold findMGPath
    rw [h1, h2, h3]

/-- Python `max(0.0, min(1.0, float(value)))` (line 521), in exact
arithmetic: comparisons and selection on floats are exact. -/
def pyClamp01 (v : ℚ) : ℚ := max 0 (min 1 v)

/-- `brushopt.set('hfade', str(c)); brushopt.set('vfade', str(c))`
(lines 522-523).  `str` of a float round-trips exactly through `float`,
so the stored attribute is modelled as `AttrVal.num c`. -/
def setHV (c : ℚ) : XmlElem → XmlElem
| .node t a x cs => .node t (attrSet "vfade" (.num c) (attrSet "hfade" (.num c) a)) x cs

theorem setHV_shape (c : ℚ) : ShapePreserving (setHV c) := by
  intro e
  cases e
  exact ⟨rfl, rfl⟩

theorem setHV_attrs (c : ℚ) (e : XmlElem) :
    (setHV c e).attrs = attrSet "vfade" (.num c) (attrSet "hfade" (.num c) e.attrs) := by
  cases e
  rfl

/-- The per-brush-definition body of `_set_brush_hardness` (lines 515-523):
for an `auto_brush` definition whose MaskGenerator node is located, write the
clamped value into both fade attributes of that node; `none` when this
definition is skipped (`continue`). -/
def setHardnessInDef (v : ℚ) (bd : XmlElem) : Option XmlElem :=
  if attrGet "type" bd.attrs = some (.str "auto_brush") then
    match findMGPath bd with
    | some p => some (setAt (setHV (pyClamp01 v)) p bd)
    | none => none
  else none

/-- `param.get('name') == "brush_definition"` on a `findall('param')` result. -/
def isBDParam (c : XmlElem) : Bool :=
  decide (c.tag = "param") && decide (attrGet "name" c.attrs = some (.str "brush_definition"))

/-- Whether a parsed brush definition is updated by `_set_brush_hardness`:
declared type `auto_brush` and a mask-generator node located. -/
def defQualifies (bd : XmlElem) : Bool :=
  decide (attrGet "type" bd.attrs = some (.str "auto_brush")) && (findMGPath bd).isSome

theorem setHardnessInDef_isSome (v : ℚ) (bd : XmlElem) :
    (setHardnessInDef v bd).isSome = defQualifies bd := by
  unfold setHardnessInDef defQualifies
  by_cases h : attrGet "type" bd.attrs = some (.str "auto_brush")
  · cases hp : findMGPath bd <;> simp [h, hp]
  · simp [h]

/-- `hfade = brushopt.get('hfade'); if hfade is None: hfade = brushopt.get('vfade')`. -/
def fadeVal (n : XmlElem) : Option AttrVal :=
  (attrGet "hfade" n.attrs).orElse (fun _ => attrGet "vfade" n.attrs)

/-- The `_get_brush_hardness` loop (lines 463-478) over the preset's direct
children; `findall('param')` yields exactly the children tagged `param`, and
non-`param` children contribute nothing.  `Except.error` models an exception
escaping the loop: `ET.fromstring` on malformed nested text, or `float()` on
a non-numeric fade attribute.  It is caught by the surrounding `try`. -/
def getLoop : List XmlElem → Except Unit (Option ℚ)
| [] => .ok none
| c :: cs =>
  if isBDParam c then
    match c.text with
    | none => getLoop cs
    | some none => .error ()
    | some (some bd) =>
      if attrGet "type" bd.attrs = some (.str "auto_brush") then
        match find_mask_generator bd with
        | none => getLoop cs
        | some n =>
          match fadeVal n with
          | none => getLoop cs
          | some av =>
            match floatVal av with
            | some q => .ok (some q)
            | none => .error ()
      else getLoop cs
  else getLoop cs

/-- `_get_brush_hardness` on the result of parsing `preset.toXML()`: input
`none` models a preset string that is not well-formed XML (`ET.fromstring`
raises, the `except` returns `None`); every other exception is likewise
caught and turned into `None`. -/
def get_brush_hardness : Option XmlElem → Option ℚ
| none => none
| some t =>
  match getLoop t.childs with
  | .error _ => none
  | .ok r => r

/-- The `_set_brush_hardness` loop (lines 510-529): `ok (some cs)` is the
rewritten child list after the first qualifying parameter is updated and the
loop `break`s; `ok none` means the loop finished without an update
(`updated` stayed false); `error` means an exception escaped the loop. -/
def setLoop (v : ℚ) : List XmlElem → Except Unit (Option (List XmlElem))
| [] => .ok none
| c :: cs =>
  if isBDParam c then
    match c.text with
    | none => (setLoop v cs).map (Option.map (c :: ·))
    | some none => .error ()
    | some (some bd) =>
      match setHardnessInDef v bd with
      | some bd' => .ok (some (c.withText (some (some bd')) :: cs))
      | none => (setLoop v cs).map (Option.map (c :: ·))
  else (setLoop v cs).map (Option.map (c :: ·))

def XmlElem.withChilds (cs : List XmlElem) : XmlElem → XmlElem
| .node t a x _ => .node t a x cs

/-- `_set_brush_hardness` on the parsed preset tree: `some t'` means
`preset.fromXML` was invoked with (the serialization of) the updated tree
`t'`; `none` means `fromXML` was never invoked, so the preset state is
unchanged — either `updated` stayed false, or an exception was caught
(lines 531-536).  Input `none` models a preset whose own XML does not
parse. -/
def set_brush_hardness (v : ℚ) : Option XmlElem → Option XmlElem
| none => none
| some t =>
  match setLoop v t.childs with
  | .error _ => none
  | .ok none => none
  | .ok (some cs) => some (t.withChilds cs)

/-- A `param` child on which `_set_brush_hardness` performs its update:
named `brush_definition`, with well-formed nonempty text whose tree
qualifies. -/
def setQualifies (c : XmlElem) : Bool :=
  isBDParam c &&
    (match c.text with
     | some (some bd) => defQualifies bd
     | _ => false)

/-- A `param` child on which `_get_brush_hardness` returns: in addition the
located mask-generator node carries a numeric `hfade`, or no `hfade` and a
numeric `vfade`. -/
def getQualifies (c : XmlElem) : Bool :=
  isBDParam c &&
    (match c.text with
     | some (some bd) =>
       decide (attrGet "type" bd.attrs = some (.str "auto_brush")) &&
         (match find_mask_generator bd with
          | some n =>
            (match fadeVal n with
             | some av => (floatVal av).isSome
             | none => false)
          | none => false)
     | _ => false)

theorem withText_tag (y : Option (Option XmlElem)) (c : XmlElem) :
    (c.withText y).tag = c.tag := by
  cases c
  rfl

theorem withText_attrs (y : Option (Option XmlElem)) (c : XmlElem) :
    (c.withText y).attrs = c.attrs := by
  cases c
  rfl

theorem withText_text (y : Option (Option XmlElem)) (c : XmlElem) :
    (c.withText y).text = y := by
  cases c
  rfl

theorem withChilds_childs (cs : List XmlElem) (t : XmlElem) :
    (t.withChilds cs).childs = cs := by
  cases t
  rfl

theorem isBDParam_withText (y : Option (Option XmlElem)) (c : XmlElem) :
    isBDParam (c.withText y) = isBDParam c := by
  simp [isBDParam, withText_tag, withText_attrs]

theorem setHardnessInDef_none (v : ℚ) (bd : XmlElem) (h : defQualifies bd = false) :
    setHardnessInDef v bd = none := by
  cases hs : setHardnessInDef v bd with
  | none => rfl
  | some b =>
    have := setHardnessInDef_isSome v bd
    rw [hs, h] at this
    exact absurd this (by simp)

theorem setLoop_no_qualify (v : ℚ) (cs : List XmlElem)
    (h : ∀ c ∈ cs, setQualifies c = false) :
    setLoop v cs = .ok none ∨ setLoop v cs = .error () := by
  induction cs with
  | nil => left; rfl
  | cons c cs ih =>
    have hc := h c (by simp)
    have hcs : ∀ c' ∈ cs, setQualifies c' = false := fun c' hm => h c' (by simp [hm])
    rcases ih hcs with h1 | h1 <;>
      [skip; skip] <;>
    · by_cases hbd : isBDParam c
      · cases hx : c.text with
        | none => simp [setLoop, hbd, hx, h1, Except.map]
        | some xo =>
          cases xo with
          | none => right; simp [setLoop, hbd, hx]
          | some bd =>
            have hdq : defQualifies bd = false := by
              simpa [setQualifies, hbd, hx] using hc
            simp [setLoop, hbd, hx, setHardnessInDef_none v bd hdq, h1, Except.map]
      · simp [setLoop, hbd, h1, Except.map]

/-- C5: when no `brush_definition` parameter carries an `auto_brush`
definition with a locatable MaskGenerator node, `_set_brush_hardness` never
reaches `preset.fromXML`, so the preset state is untouched. -/
theorem set_brush_hardness_noop (v : ℚ) (t : XmlElem)
    (h : ∀ c ∈ t.childs, setQualifies c = false) :
    set_brush_hardness v (some t) = none := by
  rcases setLoop_no_qualify v t.childs h with h1 | h1 <;>
    simp [set_brush_hardness, h1]

theorem attrGet_setAt_setHV (k : String) (hk1 : k ≠ "hfade") (hk2 : k ≠ "vfade")
    (cl : ℚ) (p : List ℕ) (bd : XmlElem) :
    attrGet k (setAt (setHV cl) p bd).attrs = attrGet k bd.attrs := by
  cases p with
  | nil =>
    simp only [setAt, setHV_attrs]
    rw [attrGet_attrSet_ne "vfade" k (Ne.symm hk2), attrGet_attrSet_ne "hfade" k (Ne.symm hk1)]
  | cons i p' =>
    cases bd
    simp [setAt, XmlElem.attrs]

theorem fadeVal_setHV (cl : ℚ) (n : XmlElem) : fadeVal (setHV cl n) = some (.num cl) := by
  unfold fadeVal
  rw [setHV_attrs, attrGet_attrSet_ne "vfade" "hfade" (by decide), attrGet_attrSet_self]
  rfl

/-- After `_set_brush_hardness` rewrote a parameter's definition, the get
loop returns the clamped value from that very parameter. -/
theorem getLoop_updated_head (v : ℚ) (c : XmlElem) (cs : List XmlElem) (bd bd' : XmlElem)
    (hbd : isBDParam c = true) (hset : setHardnessInDef v bd = some bd') :
    getLoop (c.withText (some (some bd')) :: cs) = .ok (some (pyClamp01 v)) := by
  unfold setHardnessInDef at hset
  by_cases htype : attrGet "type" bd.attrs = some (.str "auto_brush")
  case neg => simp [htype] at hset
  rw [if_pos htype] at hset
  cases hp : findMGPath bd with
  | none => rw [hp] at hset; exact absurd hset (by simp)
  | some p =>
    rw [hp] at hset
    obtain rfl : setAt (setHV (pyClamp01 v)) p bd = bd' := by simpa using hset
    obtain ⟨n, hg, ht⟩ := findMGPath_sound bd p hp
    have htype' : attrGet "type" (setAt (setHV (pyClamp01 v)) p bd).attrs
        = some (.str "auto_brush") := by
      rw [attrGet_setAt_setHV "type" (by decide) (by decide)]
      exact htype
    have hfind : find_mask_generator (setAt (setHV (pyClamp01 v)) p bd)
        = some (setHV (pyClamp01 v) n) := by
      unfold find_mask_generator
      rw [findMGPath_setAt _ (setHV_shape _) bd p, hp, Option.some_bind,
        (getPath_setAt (setHV (pyClamp01 v))).1 bd p, hg]
      rfl
    simp only [getLoop, isBDParam_withText, hbd, if_pos, withText_text, htype',
      hfind, fadeVal_setHV, floatVal]

/-- Whether a parameter's text would survive `ET.fromstring`: it is not a
nonempty non-XML string. -/
def textWF (c : XmlElem) : Bool :=
  match c.text with
  | some none => false
  | _ => true

theorem setQualifies_tail (c : XmlElem) (cs : List XmlElem) (hc : setQualifies c = false)
    (hex : ∃ c0 ∈ c :: cs, setQualifies c0 = true) : ∃ c0 ∈ cs, setQualifies c0 = true := by
  rcases hex with ⟨c0, hm, hq⟩
  rcases List.mem_cons.mp hm with rfl | hm'
  · rw [hc] at hq
    exact absurd hq (by simp)
  · exact ⟨c0, hm', hq⟩

/-- Core of the round-trip: with no malformed `brush_definition` text and at
least one qualifying parameter, the set loop rewrites a parameter and the
get loop then reads back the clamped value. -/
theorem setLoop_getLoop (v : ℚ) (cs : List XmlElem)
    (hwf : ∀ c ∈ cs, isBDParam c = true → textWF c = true)
    (hex : ∃ c ∈ cs, setQualifies c = true) :
    ∃ cs', setLoop v cs = .ok (some cs') ∧ getLoop cs' = .ok (some (pyClamp01 v)) := by
  induction cs with
  | nil => simp at hex
  | cons c cs ih =>
    have hwf' : ∀ c' ∈ cs, isBDParam c' = true → textWF c' = true :=
      fun c' hm => hwf c' (by simp [hm])
    by_cases hbd : isBDParam c
    · cases hx : c.text with
      | none =>
        have hcq : setQualifies c = false := by
          simp [setQualifies, hbd, hx]
        obtain ⟨cs', h1, h2⟩ := ih hwf' (setQualifies_tail c cs hcq hex)
        refine ⟨c :: cs', ?_, ?_⟩
        · simp [setLoop, hbd, hx, h1, Except.map]
        · simp [getLoop, hbd, hx, h2]
      | some xo =>
        cases xo with
        | none =>
          exfalso
          have hw := hwf c (by simp) hbd
          simp [textWF, hx] at hw
        | some bd =>
          cases hsd : setHardnessInDef v bd with
          | some bd' =>
            refine ⟨c.withText (some (some bd')) :: cs, ?_, ?_⟩
            · simp [setLoop, hbd, hx, hsd]
            · exact getLoop_updated_head v c cs bd bd' hbd hsd
          | none =>
            have hdq : defQualifies bd = false := by
              cases hq : defQualifies bd
              · rfl
              · have := setHardnessInDef_isSome v bd
                rw [hsd, hq] at this
                exact absurd this (by simp)
            have hcq : setQualifies c = false := by
              simp [setQualifies, hbd, hx, hdq]
            obtain ⟨cs', h1, h2⟩ := ih hwf' (setQualifies_tail c cs hcq hex)
            refine ⟨c :: cs', ?_, ?_⟩
            · simp [setLoop, hbd, hx, hsd, h1, Except.map]
            · -- the get loop also skips this parameter
              by_cases htype : attrGet "type" bd.attrs = some (.str "auto_brush")
              · have hfp : findMGPath bd = none := by
                  cases hfp : findMGPath bd
                  · rfl
                  · exfalso
                    have hq1 : defQualifies bd = true := by
                      simp [defQualifies, htype, hfp]
                    rw [hq1] at hdq
                    simp at hdq
                have hfind : find_mask_generator bd = none := by
                  simp [find_mask_generator, hfp]
                simp [getLoop, hbd, hx, htype, hfind, h2]
              · simp [getLoop, hbd, hx, htype, h2]
    · have hcq : setQualifies c = false := by
        simp [setQualifies, hbd]
      obtain ⟨cs', h1, h2⟩ := ih hwf' (setQualifies_tail c cs hcq hex)
      refine ⟨c :: cs', ?_, ?_⟩
      · simp [setLoop, hbd, h1, Except.map]
      · simp [getLoop, hbd, h2]

/-- C1 (amended): for every hardness value `v` and every preset tree whose
top-level `brush_definition` parameters all have parseable (or empty) text,
and which has a top-level `param` named `brush_definition` whose text is an
`auto_brush` definition with a locatable MaskGenerator node, calling
`_set_brush_hardness v` and then `_get_brush_hardness` on the resulting
preset returns `max 0 (min 1 v)`: the write of the `hfade`/`vfade`
attributes round-trips through the read. -/
theorem set_get_hardness_roundtrip (v : ℚ) (t : XmlElem)
    (hwf : ∀ c ∈ t.childs, isBDParam c = true → textWF c = true)
    (hex : ∃ c ∈ t.childs, setQualifies c = true) :
    get_brush_hardness (some ((set_brush_hardness v (some t)).getD t))
      = some (max 0 (min 1 v)) := by
  obtain ⟨cs', h1, h2⟩ := setLoop_getLoop v t.childs hwf hex
  have hs : set_brush_hardness v (some t) = some (t.withChilds cs') := by
    simp [set_brush_hardness, h1]
  rw [hs, Option.getD_some]
  simp [get_brush_hardness, withChilds_childs, h2, pyClamp01]

/-- Brush definition used in concrete witnesses: `auto_brush` with a direct
MaskGenerator child. -/
def goodBD : XmlElem :=
  XmlElem.node "Brush" [("type", AttrVal.str "auto_brush")] none
    [XmlElem.node "MaskGenerator"
      [("hfade", AttrVal.num (9/10)), ("vfade", AttrVal.num (9/10))] none []]

def goodPreset : XmlElem :=
  XmlElem.node "Preset" [] none
    [XmlElem.node "param" [("name", AttrVal.str "brush_definition")]
      (some (some goodBD)) []]

theorem set_get_hardness_roundtrip_witness :
    get_brush_hardness
        (some ((set_brush_hardness (7/4) (some goodPreset)).getD goodPreset))
      = some (max 0 (min 1 (7/4 : ℚ))) :=
  set_get_hardness_roundtrip (7/4) goodPreset (by decide) (by decide)

/-- Preset exhibiting the failure of C1 as stated: a `brush_definition`
parameter with malformed text precedes the qualifying one, so the shared
`try` block aborts both the write and the read. -/
def cexPresetC1 : XmlElem :=
  XmlElem.node "Preset" [] none
    [XmlElem.node "param" [("name", AttrVal.str "brush_definition")] (some none) [],
     XmlElem.node "param" [("name", AttrVal.str "brush_definition")]
       (some (some goodBD)) []]

/-- C1 as frozen is false: this preset does contain a `param` named
`brush_definition` whose text is an `auto_brush` definition with a
MaskGenerator node, yet setting hardness 3/4 and reading it back yields
`none`, not `max 0 (min 1 (3/4))` — the preceding parameter's unparseable
text makes `ET.fromstring` raise, the `except` clause swallows it, and
neither function reaches the qualifying parameter. -/
theorem set_get_hardness_cex :
    (∃ c ∈ cexPresetC1.childs, setQualifies c = true)
    ∧ get_brush_hardness
        (some ((set_brush_hardness (3/4) (some cexPresetC1)).getD cexPresetC1))
      ≠ some (max 0 (min 1 (3/4 : ℚ))) := by
  constructor
  · decide
  · decide

/-- C2: whenever `_set_brush_hardness` finds an `auto_brush` definition with
a MaskGenerator node, it writes the same clamped value, lying in `[0, 1]`,
into both the `hfade` and the `vfade` attribute of that very node. -/
theorem set_hardness_writes_clamped (v : ℚ) (bd bd' : XmlElem)
    (h : setHardnessInDef v bd = some bd') :
    0 ≤ pyClamp01 v ∧ pyClamp01 v ≤ 1 ∧
    ∃ p n, findMGPath bd = some p ∧ getPath p bd = some n ∧
      getPath p bd' = some (setHV (pyClamp01 v) n) ∧
      attrGet "hfade" (setHV (pyClamp01 v) n).attrs = some (.num (pyClamp01 v)) ∧
      attrGet "vfade" (setHV (pyClamp01 v) n).attrs = some (.num (pyClamp01 v)) := by
  refine ⟨le_max_left 0 _, ?_, ?_⟩
  · exact max_le (by norm_num) (min_le_left 1 v)
  · unfold setHardnessInDef at h
    by_cases htype : attrGet "type" bd.attrs = some (.str "auto_brush")
    case neg => simp [htype] at h
    rw [if_pos htype] at h
    cases hp : findMGPath bd with
    | none => rw [hp] at h; exact absurd h (by simp)
    | some p =>
      rw [hp] at h
      obtain rfl : setAt (setHV (pyClamp01 v)) p bd = bd' := by simpa using h
      obtain ⟨n, hg, _⟩ := findMGPath_sound bd p hp
      refine ⟨p, n, rfl, hg, ?_, ?_, ?_⟩
      · rw [(getPath_setAt (setHV (pyClamp01 v))).1 bd p, hg]
        rfl
      · rw [setHV_attrs, attrGet_attrSet_ne "vfade" "hfade" (by decide),
          attrGet_attrSet_self]
      · rw [setHV_attrs, attrGet_attrSet_self]

theorem set_hardness_writes_clamped_witness :
    0 ≤ pyClamp01 2 ∧ pyClamp01 2 ≤ 1 ∧
    ∃ p n, findMGPath goodBD = some p ∧ getPath p goodBD = some n ∧
      getPath p
          (XmlElem.node "Brush" [("type", AttrVal.str "auto_brush")] none
            [XmlElem.node "MaskGenerator"
              [("hfade", AttrVal.num 1), ("vfade", AttrVal.num 1)] none []])
        = some (setHV (pyClamp01 2) n) ∧
      attrGet "hfade" (setHV (pyClamp01 2) n).attrs = some (.num (pyClamp01 2)) ∧
      attrGet "vfade" (setHV (pyClamp01 2) n).attrs = some (.num (pyClamp01 2)) :=
  set_hardness_writes_clamped 2 goodBD _ rfl

/-- C3 (amended): `_find_mask_generator` never raises (it is a total
function here), returns an element whose tag ends with `MaskGenerator` — the
namespaced-tag heuristic of its third phase, which also inspects the root
itself — whenever the tree has such an element, and returns `None` exactly
when it has none. -/
theorem find_mask_generator_spec (e : XmlElem) :
    (find_mask_generator e = none ↔ hasPred tagEndsMG e = false)
    ∧ ∀ n, find_mask_generator e = some n → tagEndsMG n.tag = true := by
  constructor
  · unfold find_mask_generator
    cases hp : findMGPath e with
    | none => simp [(findMGPath_none_iff e).1 hp]
    | some p =>
      obtain ⟨n, hg, _⟩ := findMGPath_sound e p hp
      simp only [Option.some_bind, hg]
      constructor
      · intro h; exact absurd h (by simp)
      · intro h
        rw [← findMGPath_none_iff e] at h
        rw [h] at hp
        exact absurd hp (by simp)
  · intro n hn
    unfold find_mask_generator at hn
    cases hp : findMGPath e with
    | none => rw [hp] at hn; exact absurd hn (by simp)
    | some p =>
      rw [hp, Option.some_bind] at hn
      obtain ⟨n', hg, ht⟩ := findMGPath_sound e p hp
      rw [hg] at hn
      obtain rfl : n' = n := by simpa using hn
      exact ht

/-- Tree with a `FooMaskGenerator` element and no `MaskGenerator` element. -/
def cexTreeC3 : XmlElem :=
  XmlElem.node "Brush" [] none [XmlElem.node "FooMaskGenerator" [] none []]

/-- C3 as frozen is false: this tree has no element tagged `MaskGenerator`
at any depth, yet `_find_mask_generator` does not return `None` — its third
phase accepts any tag merely ending with `MaskGenerator`, here
`FooMaskGenerator`. -/
theorem find_mask_generator_cex :
    hasPred tagIsMG cexTreeC3 = false
    ∧ (find_mask_generator cexTreeC3).isSome = true := by
  constructor
  · decide
  · decide

theorem find_mask_generator_spec_witness :
    tagEndsMG (XmlElem.node "FooMaskGenerator" [] none []).tag = true :=
  (find_mask_generator_spec cexTreeC3).2 (XmlElem.node "FooMaskGenerator" [] none [])
    rfl

/-- Preset whose only brush definition is not an `auto_brush`. -/
def plainPreset : XmlElem :=
  XmlElem.node "Preset" [] none
    [XmlElem.node "param" [("name", AttrVal.str "brush_definition")]
      (some (some (XmlElem.node "Brush" [("type", AttrVal.str "pipe_brush")] none [])))
      []]

theorem set_brush_hardness_noop_witness :
    set_brush_hardness (1/2) (some plainPreset) = none :=
  set_brush_hardness_noop (1/2) plainPreset (by decide)

/-- What the get loop returning `q` certifies about a parameter: named
`brush_definition`, parseable `auto_brush` text, a located mask-generator
node whose `hfade` is the numeric string of `q`, or which has no `hfade`
and whose `vfade` is the numeric string of `q`. -/
def GetWitness (q : ℚ) (c : XmlElem) : Prop :=
  isBDParam c = true ∧ ∃ bd, c.text = some (some bd) ∧
    attrGet "type" bd.attrs = some (.str "auto_brush") ∧
    ∃ n, find_mask_generator bd = some n ∧
      (attrGet "hfade" n.attrs = some (.num q) ∨
        (attrGet "hfade" n.attrs = none ∧ attrGet "vfade" n.attrs = some (.num q)))

theorem getLoop_some_exists (cs : List XmlElem) (q : ℚ)
    (h : getLoop cs = .ok (some q)) : ∃ c ∈ cs, GetWitness q c := by
  induction cs with
  | nil => exact absurd h (by simp [getLoop])
  | cons c cs ih =>
    have tail : getLoop cs = .ok (some q) → ∃ c' ∈ c :: cs, GetWitness q c' := by
      intro h'
      obtain ⟨c', hm, hw⟩ := ih h'
      exact ⟨c', by simp [hm], hw⟩
    by_cases hbd : isBDParam c
    · cases hx : c.text with
      | none =>
        simp only [getLoop, hbd, if_true, hx] at h
        exact tail h
      | some xo =>
        cases xo with
        | none =>
          simp [getLoop, hbd, hx] at h
        | some bd =>
          simp only [getLoop, hbd, if_true, hx] at h
          by_cases htype : attrGet "type" bd.attrs = some (.str "auto_brush")
          · simp [htype] at h
            cases hf : find_mask_generator bd with
            | none => simp [hf] at h; exact tail h
            | some n =>
              simp [hf] at h
              cases hfv : fadeVal n with
              | none => simp [hfv] at h; exact tail h
              | some av =>
                simp [hfv] at h
                cases hflo : floatVal av with
                | none => simp [hflo] at h
                | some q' =>
                  simp [hflo] at h
                  obtain rfl : q' = q := h
                  obtain rfl : av = AttrVal.num q' := by
                    cases av with
                    | str s => exact absurd hflo (by simp [floatVal])
                    | num q0 => simpa [floatVal] using hflo
                  refine ⟨c, by simp, hbd, bd, hx, htype, n, hf, ?_⟩
                  unfold fadeVal at hfv
                  cases hh : attrGet "hfade" n.attrs with
                  | some a' =>
                    rw [hh] at hfv
                    left
                    simpa [Option.orElse] using hfv
                  | none =>
                    rw [hh] at hfv
                    right
                    exact ⟨rfl, by simpa [Option.orElse] using hfv⟩
          · simp [htype] at h
            exact tail h
    · simp [getLoop, hbd] at h
      exact tail h

theorem getLoop_no_qualify (cs : List XmlElem)
    (h : ∀ c ∈ cs, getQualifies c = false) :
    getLoop cs = .ok none ∨ getLoop cs = .error () := by
  induction cs with
  | nil => left; rfl
  | cons c cs ih =>
    have hc := h c (by simp)
    have hcs : ∀ c' ∈ cs, getQualifies c' = false := fun c' hm => h c' (by simp [hm])
    have ih' := ih hcs
    by_cases hbd : isBDParam c
    · cases hx : c.text with
      | none =>
        rcases ih' with h1 | h1 <;> [left; right] <;> simp [getLoop, hbd, hx, h1]
      | some xo =>
        cases xo with
        | none => right; simp [getLoop, hbd, hx]
        | some bd =>
          by_cases htype : attrGet "type" bd.attrs = some (.str "auto_brush")
          · cases hf : find_mask_generator bd with
            | none =>
              rcases ih' with h1 | h1 <;> [left; right] <;>
                simp [getLoop, hbd, hx, htype, hf, h1]
            | some n =>
              cases hfv : fadeVal n with
              | none =>
                rcases ih' with h1 | h1 <;> [left; right] <;>
                  simp [getLoop, hbd, hx, htype, hf, hfv, h1]
              | some av =>
                cases hflo : floatVal av with
                | none => right; simp [getLoop, hbd, hx, htype, hf, hfv, hflo]
                | some q =>
                  exfalso
                  have hq1 : getQualifies c = true := by
                    simp [getQualifies, hbd, hx, htype, hf, hfv, hflo]
                  rw [hq1] at hc
                  simp at hc
          · rcases ih' with h1 | h1 <;> [left; right] <;>
              simp [getLoop, hbd, hx, htype, h1]
    · rcases ih' with h1 | h1 <;> [left; right] <;> simp [getLoop, hbd, h1]

/-- C4: `_get_brush_hardness` is total — malformed preset XML, missing or
empty or malformed `brush_definition` text, non-`auto_brush` definitions,
absent MaskGenerator nodes, missing or non-numeric fade attributes all fall
through to `None` via the catch-all `except` — and a returned value is the
float parsed from the located node's `hfade`, or from its `vfade` when
`hfade` is absent. -/
theorem get_brush_hardness_spec :
    get_brush_hardness none = none
    ∧ (∀ t q, get_brush_hardness (some t) = some q → ∃ c ∈ t.childs, GetWitness q c)
    ∧ (∀ t, (∀ c ∈ t.childs, getQualifies c = false) →
        get_brush_hardness (some t) = none) := by
  refine ⟨rfl, ?_, ?_⟩
  · intro t q h
    simp only [get_brush_hardness] at h
    cases hl : getLoop t.childs with
    | error e => simp [hl] at h
    | ok r =>
      simp [hl] at h
      rw [h] at hl
      exact getLoop_some_exists t.childs q hl
  · intro t h
    rcases getLoop_no_qualify t.childs h with h1 | h1 <;>
      simp [get_brush_hardness, h1]

theorem get_brush_hardness_spec_witness :
    ∃ c ∈ goodPreset.childs, GetWitness (9/10) c :=
  get_brush_hardness_spec.2.1 goodPreset (9/10) rfl

/-- Python `round`: round half to even (banker's rounding), on exact
rationals. -/
def pyRound (q : ℚ) : ℤ :=
  let f := ⌊q⌋
  let r := q - (f : ℚ)
  if r < 1/2 then f
  else if (1/2 : ℚ) < r then f + 1
  else if f % 2 = 0 then f else f + 1

/-- Python `int` on a float: truncation toward zero. -/
def pyTrunc (q : ℚ) : ℤ := if q < 0 then -(⌊-q⌋) else ⌊q⌋

/-- `pyRound` lands within half a unit of its argument. -/
theorem pyRound_le_half (q : ℚ) : |(pyRound q : ℚ) - q| ≤ 1/2 := by
  unfold pyRound
  have h0 : (⌊q⌋ : ℚ) ≤ q := Int.floor_le q
  have h1 : q < (⌊q⌋ : ℚ) + 1 := Int.lt_floor_add_one q
  by_cases hr : q - (⌊q⌋ : ℚ) < 1/2
  · rw [if_pos hr, abs_le]
    constructor <;> linarith
  · rw [if_neg hr]
    by_cases hr2 : (1/2 : ℚ) < q - (⌊q⌋ : ℚ)
    · rw [if_pos hr2, abs_le]
      push_cast
      constructor <;> linarith
    · have he : q - (⌊q⌋ : ℚ) = 1/2 := le_antisymm (not_lt.mp hr2) (not_lt.mp hr)
      rw [if_neg hr2]
      by_cases hev : ⌊q⌋ % 2 = 0
      · rw [if_pos hev, abs_le]
        constructor <;> linarith
      · rw [if_neg hev, abs_le]
        push_cast
        constructor <;> linarith

/-- Geometry of one `SliderSpinBox` as `_updateValueFromMouse` sees it:
range, step and widget width, in exact real arithmetic. -/
structure SliderCfg where
  minimum : ℚ
  maximum : ℚ
  singleStep : ℚ
  width : ℚ

/-- Lines 114-121: clamp the horizontal fraction, interpolate linearly over
the range, and round to a multiple of the step. -/
def mouseTargetValue (s : SliderCfg) (x : ℚ) : ℚ :=
  let frac := max 0 (min 1 (x / s.width))
  let value_range := s.maximum - s.minimum
  let new_value := s.minimum + frac * value_range
  let steps := pyRound (new_value / s.singleStep)
  (steps : ℚ) * s.singleStep

/-- `QDoubleSpinBox.setValue` clamps the passed value into the widget
range. -/
def spinSetValue (s : SliderCfg) (v : ℚ) : ℚ := max s.minimum (min s.maximum v)

/-- `_updateValueFromMouse`: the value held by the widget afterwards. -/
def updateValueFromMouse (s : SliderCfg) (x : ℚ) : ℚ :=
  spinSetValue s (mouseTargetValue s x)

/-- C6: `_updateValueFromMouse` computes the linear interpolation
`minimum + clamp(x/width, 0, 1) * (maximum - minimum)`, rounds it to an
integer multiple of `singleStep` at distance at most `singleStep/2` (the
nearest multiple, half rounded to even), and passes that to `setValue`; the
value finally held lies within `[minimum, maximum]`, and equals the rounded
multiple whenever that multiple already lies in the range. -/
theorem updateValueFromMouse_spec (s : SliderCfg) (x : ℚ)
    (hmin : s.minimum < s.maximum) (hw : 0 < s.width) (hs : 0 < s.singleStep) :
    (∃ k : ℤ, mouseTargetValue s x = (k : ℚ) * s.singleStep ∧
      |mouseTargetValue s x -
          (s.minimum + max 0 (min 1 (x / s.width)) * (s.maximum - s.minimum))|
        ≤ s.singleStep / 2)
    ∧ s.minimum ≤ updateValueFromMouse s x
    ∧ updateValueFromMouse s x ≤ s.maximum
    ∧ (s.minimum ≤ mouseTargetValue s x → mouseTargetValue s x ≤ s.maximum →
        updateValueFromMouse s x = mouseTargetValue s x) := by
  refine ⟨?_, ?_, ?_, ?_⟩
  · set L := s.minimum + max 0 (min 1 (x / s.width)) * (s.maximum - s.minimum) with hL
    refine ⟨pyRound (L / s.singleStep), rfl, ?_⟩
    have hb := pyRound_le_half (L / s.singleStep)
    have hT : mouseTargetValue s x - L
        = ((pyRound (L / s.singleStep) : ℚ) - L / s.singleStep) * s.singleStep := by
      unfold mouseTargetValue
      field_simp
    rw [hT, abs_mul, abs_of_pos hs]
    calc |(pyRound (L / s.singleStep) : ℚ) - L / s.singleStep| * s.singleStep
        ≤ (1/2) * s.singleStep := by
          exact mul_le_mul_of_nonneg_right hb (le_of_lt hs)
      _ = s.singleStep / 2 := by ring
  · exact le_max_left _ _
  · exact max_le (le_of_lt hmin) (min_le_left _ _)
  · intro hlo hhi
    unfold updateValueFromMouse spinSetValue
    rw [min_eq_right hhi, max_eq_right hlo]

/-- Docker state touched by the size-slider synchronization code.  The size
slider's minimum is fixed at 1 (`setRange(1, max_brush_size)` at
construction, never changed afterwards).  `pending_config_save` is the
debounce flag; the handlers themselves are not re-entered here, `setValue`
being wrapped in `blockSignals`. -/
structure SizeState where
  max_brush_size : ℚ
  last_brush_size : Option ℚ
  slider_value : ℚ
  slider_max : ℚ
  pending_config_save : Bool

/-- `size_slider.setMaximum(m)`: Qt clamps the held value into the new
range. -/
def sizeSetMaximum (m : ℚ) (st : SizeState) : SizeState :=
  { st with slider_max := m, slider_value := min st.slider_value m }

/-- `size_slider.setValue(v)`: Qt clamps the passed value into
`[1, maximum]`. -/
def sizeSetValue (v : ℚ) (st : SizeState) : SizeState :=
  { st with slider_value := max 1 (min st.slider_max v) }

/-- Effect of `save_config` (lines 221-225) on this state: whether or not a
save was already pending, the flag is true afterwards (the timer bookkeeping
is modelled separately for the debouncing claim). -/
def saveConfigFlag (st : SizeState) : SizeState :=
  { st with pending_config_save := true }

/-- `_update_size_slider` (lines 390-409): possibly expand the maximum to
`min(10000, max(100, int(size)))`, then write `int(clamped)` into the slider
unless `last_brush_size` already equals the clamped size. -/
def update_size_slider (sz : Option ℚ) (st : SizeState) : SizeState :=
  match sz with
  | none => st
  | some size =>
    let st1 :=
      if st.max_brush_size < size then
        let nm : ℤ := min 10000 (max 100 (pyTrunc size))
        if (nm : ℚ) = st.max_brush_size then st
        else saveConfigFlag (sizeSetMaximum (nm : ℚ)
          { st with max_brush_size := (nm : ℚ) })
      else st
    let clamped := max 1 (min st1.max_brush_size size)
    if st1.last_brush_size = some clamped then st1
    else sizeSetValue ((pyTrunc clamped : ℤ) : ℚ)
      { st1 with last_brush_size := some clamped }

/-- `load_config` (lines 202-215): `none` when the config file does not
exist, `some none` when reading or JSON parsing fails, `some (some m)` for a
loaded numeric `max_brush_size` (the missing-key default 1000 folded in). -/
def load_config (file : Option (Option ℚ)) (st : SizeState) : SizeState :=
  match file with
  | none => st
  | some none => { st with max_brush_size := 1000 }
  | some (some m) => { st with max_brush_size := max 100 (min 10000 m) }

/-- `_validate_max_brush_size` (lines 352-373): `cur` is
`view.brushSize()`, `none` when there is no active view. -/
def validate_max_brush_size (cur : Option ℚ) (st : SizeState) : SizeState :=
  match cur with
  | none => st
  | some c =>
    if c ≤ 1000 ∧ 1000 < st.max_brush_size then
      saveConfigFlag (sizeSetMaximum 1000 { st with max_brush_size := 1000 })
    else if st.max_brush_size < c then
      let nm : ℤ := min 10000 (max 1000 (pyTrunc c))
      saveConfigFlag (sizeSetMaximum (nm : ℚ) { st with max_brush_size := (nm : ℚ) })
    else st

/-- The operations that assign `max_brush_size`. -/
inductive DockerOp where
| loadConfig (file : Option (Option ℚ))
| validateMax (cur : Option ℚ)
| updateSize (sz : Option ℚ)

def dockerStep (st : SizeState) : DockerOp → SizeState
| .loadConfig f => load_config f st
| .validateMax c => validate_max_brush_size c st
| .updateSize s => update_size_slider s st

/-- State right after `__init__` sets the defaults (line 157). -/
def initSizeState : SizeState :=
  { max_brush_size := 1000, last_brush_size := none, slider_value := 1,
    slider_max := 1000, pending_config_save := false }

def runDocker (ops : List DockerOp) : SizeState :=
  List.foldl dockerStep initSizeState ops

theorem pyTrunc_intCast (n : ℤ) : pyTrunc (n : ℚ) = n := by
  unfold pyTrunc
  by_cases h : (n : ℚ) < 0
  · rw [if_pos h, ← Int.cast_neg, Int.floor_intCast, neg_neg]
  · rw [if_neg h, Int.floor_intCast]

theorem pyTrunc_le (q : ℚ) (h : 0 ≤ q) : (pyTrunc q : ℚ) ≤ q := by
  unfold pyTrunc
  rw [if_neg (not_lt.mpr h)]
  exact Int.floor_le q

theorem le_pyTrunc (q : ℚ) (h : 1 ≤ q) : 1 ≤ pyTrunc q := by
  unfold pyTrunc
  rw [if_neg (not_lt.mpr (le_trans zero_le_one h))]
  exact_mod_cast Int.le_floor.mpr (by exact_mod_cast h)

/-- The maximum after `_update_size_slider`'s expansion step. -/
def expandedMax (st : SizeState) (size : ℚ) : ℚ :=
  if st.max_brush_size < size then ((min 10000 (max 100 (pyTrunc size)) : ℤ) : ℚ)
  else st.max_brush_size

theorem expandedMax_ge (st : SizeState) (size : ℚ) (hmax : 100 ≤ st.max_brush_size) :
    100 ≤ expandedMax st size := by
  unfold expandedMax
  by_cases hlt : st.max_brush_size < size
  · rw [if_pos hlt]
    have h : (100 : ℤ) ≤ min 10000 (max 100 (pyTrunc size)) :=
      le_min (by norm_num) (le_max_left _ _)
    exact_mod_cast h
  · rw [if_neg hlt]
    exact hmax

/-- C7 (amended): with the slider maximum in sync with `max_brush_size`
(which the docker maintains) and the remembered `last_brush_size` different
from the clamped size (otherwise the write is skipped), `_update_size_slider`
first expands the maximum to `min(10000, max(100, int(size)))` when the size
exceeds it, and then stores `int(clamp(size, 1, max'))` — the clamped size
truncated to an integer — as the slider value; integer sizes in `[1, 10000]`
are therefore mirrored exactly. -/
theorem update_size_slider_spec (st : SizeState) (size : ℚ)
    (hsync : st.slider_max = st.max_brush_size)
    (hmax : 100 ≤ st.max_brush_size)
    (hguard : st.last_brush_size ≠ some (max 1 (min (expandedMax st size) size))) :
    (update_size_slider (some size) st).max_brush_size = expandedMax st size
    ∧ (update_size_slider (some size) st).slider_value
        = ((pyTrunc (max 1 (min (expandedMax st size) size)) : ℤ) : ℚ)
    ∧ ∀ n : ℤ, size = (n : ℚ) → 1 ≤ n → n ≤ 10000 →
        (update_size_slider (some size) st).slider_value = (n : ℚ) := by
  have hM : 100 ≤ expandedMax st size := expandedMax_ge st size hmax
  set M := expandedMax st size with hMdef
  set clamped := max 1 (min M size) with hcl
  have hcl1 : (1 : ℚ) ≤ clamped := le_max_left _ _
  have hclM : clamped ≤ M := max_le (by linarith) (min_le_left _ _)
  have htr1 : (1 : ℚ) ≤ ((pyTrunc clamped : ℤ) : ℚ) := by
    have := le_pyTrunc clamped hcl1
    exact_mod_cast this
  have htrM : ((pyTrunc clamped : ℤ) : ℚ) ≤ M :=
    le_trans (pyTrunc_le clamped (by linarith)) hclM
  have hval : ∀ st1 : SizeState, st1.max_brush_size = M → st1.slider_max = M →
      st1.last_brush_size = st.last_brush_size →
      ((if st1.last_brush_size = some (max 1 (min st1.max_brush_size size)) then st1
        else sizeSetValue ((pyTrunc (max 1 (min st1.max_brush_size size)) : ℤ) : ℚ)
          { st1 with last_brush_size := some (max 1 (min st1.max_brush_size size)) })
       ).slider_value = ((pyTrunc clamped : ℤ) : ℚ) := by
    intro st1 h1 h2 h3
    rw [h1, h3, ← hcl, if_neg hguard]
    show max 1 (min st1.slider_max ((pyTrunc clamped : ℤ) : ℚ)) = _
    rw [h2, min_eq_right htrM, max_eq_right htr1]
  have hmain : (update_size_slider (some size) st).max_brush_size = M
      ∧ (update_size_slider (some size) st).slider_value
        = ((pyTrunc clamped : ℤ) : ℚ) := by
    unfold update_size_slider
    by_cases hlt : st.max_brush_size < size
    · by_cases heq : ((min 10000 (max 100 (pyTrunc size)) : ℤ) : ℚ) = st.max_brush_size
      · have hMeq : M = st.max_brush_size := by
          rw [hMdef]
          unfold expandedMax
          rw [if_pos hlt, heq]
        simp only [hlt, if_pos, heq, if_true]
        constructor
        · by_cases hg : st.last_brush_size = some (max 1 (min st.max_brush_size size))
          · simp only [hg, if_true, if_pos, hMeq]
          · simp only [hg, if_false, if_neg, not_false_iff, sizeSetValue, hMeq]
        · have := hval st (by rw [hMeq]) (by rw [hsync, hMeq]) rfl
          simpa using this
      · have hMeq : M = ((min 10000 (max 100 (pyTrunc size)) : ℤ) : ℚ) := by
          rw [hMdef]
          unfold expandedMax
          rw [if_pos hlt]
        simp only [hlt, if_pos, heq, if_false]
        set st1 := saveConfigFlag (sizeSetMaximum ((min 10000 (max 100 (pyTrunc size)) : ℤ) : ℚ)
          { st with max_brush_size := ((min 10000 (max 100 (pyTrunc size)) : ℤ) : ℚ) }) with hst1
        have e1 : st1.max_brush_size = M := by
          rw [hst1, hMeq]
          rfl
        have e2 : st1.slider_max = M := by
          rw [hst1, hMeq]
          rfl
        have e3 : st1.last_brush_size = st.last_brush_size := by
          rw [hst1]
          rfl
        constructor
        · by_cases hg : st1.last_brush_size = some (max 1 (min st1.max_brush_size size))
          · rw [if_pos hg]
            exact e1
          · rw [if_neg hg]
            simpa [sizeSetValue] using e1
        · have := hval st1 e1 e2 e3
          simpa using this
    · have hMeq : M = st.max_brush_size := by
        rw [hMdef]
        unfold expandedMax
        rw [if_neg hlt]
      simp only [hlt, if_neg, not_false_iff, if_false]
      constructor
      · by_cases hg : st.last_brush_size = some (max 1 (min st.max_brush_size size))
        · simp only [hg, if_true, if_pos, hMeq]
        · simp only [hg, if_false, if_neg, not_false_iff, sizeSetValue, hMeq]
      · have := hval st (by rw [hMeq]) (by rw [hsync, hMeq]) rfl
        simpa using this
  refine ⟨hmain.1, hmain.2, ?_⟩
  rintro n rfl hn1 hn2
  have hcln : clamped = (n : ℚ) := by
    have hMn : (n : ℚ) ≤ M := by
      rw [hMdef]
      unfold expandedMax
      by_cases hlt : st.max_brush_size < (n : ℚ)
      · rw [if_pos hlt]
        have h100 : (100 : ℤ) ≤ n := by
          have : (100 : ℚ) ≤ (n : ℚ) := by linarith
          exact_mod_cast this
        have : min 10000 (max 100 (pyTrunc ((n : ℚ)))) = n := by
          rw [pyTrunc_intCast, max_eq_right h100, min_eq_right hn2]
        rw [this]
      · rw [if_neg hlt]
        linarith [not_lt.mp hlt]
    rw [hcl, min_eq_right hMn, max_eq_right (by exact_mod_cast hn1)]
  rw [hmain.2, hcln, pyTrunc_intCast]

unseal Rat.mul Rat.inv Rat.add Rat.sub in
/-- C7 as frozen is false: from the freshly initialized docker state, a
reported brush size of 1.5 px leaves the slider at 1, not at
`clamp(1.5, 1, max_brush_size) = 1.5` — the code stores `int(clamped)`,
truncating fractional sizes. -/
theorem update_size_slider_cex :
    max 1 (min initSizeState.max_brush_size (3/2 : ℚ)) = 3/2
    ∧ (update_size_slider (some (3/2)) initSizeState).slider_value = 1
    ∧ (update_size_slider (some (3/2)) initSizeState).slider_value
        ≠ max 1 (min initSizeState.max_brush_size (3/2 : ℚ)) := by
  refine ⟨?_, ?_, ?_⟩ <;> decide

theorem update_size_slider_spec_witness :
    (update_size_slider (some 500) initSizeState).max_brush_size
        = expandedMax initSizeState 500
    ∧ (update_size_slider (some 500) initSizeState).slider_value
        = ((pyTrunc (max 1 (min (expandedMax initSizeState 500) 500)) : ℤ) : ℚ)
    ∧ ∀ n : ℤ, (500 : ℚ) = (n : ℚ) → 1 ≤ n → n ≤ 10000 →
        (update_size_slider (some 500) initSizeState).slider_value = (n : ℚ) :=
  update_size_slider_spec initSizeState 500 rfl (by decide) (by decide)

theorem update_size_slider_max (st : SizeState) (size : ℚ) :
    (update_size_slider (some size) st).max_brush_size = expandedMax st size := by
  unfold update_size_slider
  by_cases hlt : st.max_brush_size < size
  · by_cases heq : ((min 10000 (max 100 (pyTrunc size)) : ℤ) : ℚ) = st.max_brush_size
    · have hMeq : expandedMax st size = st.max_brush_size := by
        unfold expandedMax
        rw [if_pos hlt, heq]
      simp only [hlt, if_pos, heq, if_true]
      by_cases hg : st.last_brush_size = some (max 1 (min st.max_brush_size size))
      · rw [if_pos hg, hMeq]
      · rw [if_neg hg, hMeq]
        rfl
    · have hMeq : expandedMax st size = ((min 10000 (max 100 (pyTrunc size)) : ℤ) : ℚ) := by
        unfold expandedMax
        rw [if_pos hlt]
      simp only [hlt, if_pos, heq, if_false]
      set st1 := saveConfigFlag (sizeSetMaximum ((min 10000 (max 100 (pyTrunc size)) : ℤ) : ℚ)
        { st with max_brush_size := ((min 10000 (max 100 (pyTrunc size)) : ℤ) : ℚ) }) with hst1
      have e1 : st1.max_brush_size = expandedMax st size := by
        rw [hst1, hMeq]
        rfl
      by_cases hg : st1.last_brush_size = some (max 1 (min st1.max_brush_size size))
      · rw [if_pos hg]
        exact e1
      · rw [if_neg hg]
        simpa [sizeSetValue] using e1
  · have hMeq : expandedMax st size = st.max_brush_size := by
      unfold expandedMax
      rw [if_neg hlt]
    simp only [hlt, if_neg, not_false_iff, if_false]
    by_cases hg : st.last_brush_size = some (max 1 (min st.max_brush_size size))
    · rw [if_pos hg, hMeq]
    · rw [if_neg hg, hMeq]
      rfl

theorem expandedMax_le (st : SizeState) (size : ℚ) (h2 : st.max_brush_size ≤ 10000) :
    expandedMax st size ≤ 10000 := by
  unfold expandedMax
  by_cases hlt : st.max_brush_size < size
  · rw [if_pos hlt]
    have h : (min 10000 (max 100 (pyTrunc size)) : ℤ) ≤ 10000 := min_le_left _ _
    exact_mod_cast h
  · rw [if_neg hlt]
    exact h2

theorem dockerStep_inv (st : SizeState) (op : DockerOp)
    (h1 : 100 ≤ st.max_brush_size) (h2 : st.max_brush_size ≤ 10000) :
    100 ≤ (dockerStep st op).max_brush_size
    ∧ (dockerStep st op).max_brush_size ≤ 10000 := by
  cases op with
  | loadConfig f =>
    cases f with
    | none => exact ⟨h1, h2⟩
    | some fo =>
      cases fo with
      | none =>
        constructor <;> norm_num [dockerStep, load_config]
      | some m =>
        constructor
        · show (100 : ℚ) ≤ max 100 (min 10000 m)
          exact le_max_left _ _
        · show max 100 (min 10000 m) ≤ (10000 : ℚ)
          exact max_le (by norm_num) (min_le_left _ _)
  | validateMax c =>
    cases c with
    | none => exact ⟨h1, h2⟩
    | some cq =>
      show 100 ≤ (validate_max_brush_size (some cq) st).max_brush_size
        ∧ (validate_max_brush_size (some cq) st).max_brush_size ≤ 10000
      simp only [validate_max_brush_size]
      by_cases hA : cq ≤ 1000 ∧ 1000 < st.max_brush_size
      · rw [if_pos hA]
        constructor <;> norm_num [saveConfigFlag, sizeSetMaximum]
      · rw [if_neg hA]
        by_cases hB : st.max_brush_size < cq
        · rw [if_pos hB]
          have hlo : (1000 : ℤ) ≤ min 10000 (max 1000 (pyTrunc cq)) :=
            le_min (by norm_num) (le_max_left _ _)
          have hhi : (min 10000 (max 1000 (pyTrunc cq)) : ℤ) ≤ 10000 := min_le_left _ _
          constructor
          · show (100 : ℚ) ≤ ((min 10000 (max 1000 (pyTrunc cq)) : ℤ) : ℚ)
            have : (100 : ℤ) ≤ min 10000 (max 1000 (pyTrunc cq)) := by linarith
            exact_mod_cast this
          · show ((min 10000 (max 1000 (pyTrunc cq)) : ℤ) : ℚ) ≤ 10000
            exact_mod_cast hhi
        · rw [if_neg hB]
          exact ⟨h1, h2⟩
  | updateSize s =>
    cases s with
    | none => exact ⟨h1, h2⟩
    | some size =>
      show 100 ≤ (update_size_slider (some size) st).max_brush_size
        ∧ (update_size_slider (some size) st).max_brush_size ≤ 10000
      rw [update_size_slider_max]
      exact ⟨expandedMax_ge st size h1, expandedMax_le st size h2⟩

/-- C10: starting from the initialized docker (default 1000), every
operation that assigns `max_brush_size` — `load_config`,
`_validate_max_brush_size`, `_update_size_slider` — keeps it within
`[100, 10000]`. -/
theorem max_brush_size_invariant (ops : List DockerOp) :
    100 ≤ (runDocker ops).max_brush_size ∧ (runDocker ops).max_brush_size ≤ 10000 := by
  suffices h : ∀ (l : List DockerOp) (st : SizeState), 100 ≤ st.max_brush_size →
      st.max_brush_size ≤ 10000 →
      100 ≤ (List.foldl dockerStep st l).max_brush_size
      ∧ (List.foldl dockerStep st l).max_brush_size ≤ 10000 by
    exact h ops initSizeState (by decide) (by decide)
  intro l
  induction l with
  | nil => intro st ha hb; exact ⟨ha, hb⟩
  | cons op l ih =>
    intro st ha hb
    obtain ⟨hc, hd⟩ := dockerStep_inv st op ha hb
    exact ih (dockerStep st op) hc hd

/-- Hardness-slider geometry used in the witness: range 0-100, step 1,
200 px wide. -/
def cfgW : SliderCfg := { minimum := 0, maximum := 100, singleStep := 1, width := 200 }

theorem updateValueFromMouse_spec_witness :
    (∃ k : ℤ, mouseTargetValue cfgW 50 = (k : ℚ) * cfgW.singleStep ∧
      |mouseTargetValue cfgW 50 -
          (cfgW.minimum + max 0 (min 1 ((50 : ℚ) / cfgW.width)) * (cfgW.maximum - cfgW.minimum))|
        ≤ cfgW.singleStep / 2)
    ∧ cfgW.minimum ≤ updateValueFromMouse cfgW 50
    ∧ updateValueFromMouse cfgW 50 ≤ cfgW.maximum
    ∧ (cfgW.minimum ≤ mouseTargetValue cfgW 50 → mouseTargetValue cfgW 50 ≤ cfgW.maximum →
        updateValueFromMouse cfgW 50 = mouseTargetValue cfgW 50) :=
  updateValueFromMouse_spec cfgW 50 (by decide) (by decide) (by decide)

/-- Events of the config-saving subsystem: a call to `save_config`, and the
firing of a `QTimer.singleShot(500, _do_save_config)` callback. -/
inductive SaveEvent where
| save
| fire

/-- `_pending_config_save` together with the number of outstanding
single-shot timers armed for `_do_save_config`. -/
structure SaveState where
  pending : Bool
  scheduled : ℕ

/-- `save_config` (lines 221-225) arms a timer only when no save is pending;
a firing timer (`_do_save_config`, lines 227-237) clears the flag first and
then writes; a `fire` with no armed timer is a no-op (the timer cannot fire
unarmed). -/
def saveStep (st : SaveState) : SaveEvent → SaveState
| .save => if st.pending then st else { pending := true, scheduled := st.scheduled + 1 }
| .fire => if st.scheduled = 0 then st else { pending := false, scheduled := st.scheduled - 1 }

/-- Whether a `fire` event in this state executes `_do_save_config` — and
therefore writes the config file. -/
def fireWrites (st : SaveState) : Bool := decide (st.scheduled ≠ 0)

/-- State at `__init__` (line 160). -/
def initSave : SaveState := { pending := false, scheduled := 0 }

def runSave (st : SaveState) (es : List SaveEvent) : SaveState :=
  List.foldl saveStep st es

theorem saveStep_inv (st : SaveState)
    (h : st.scheduled = if st.pending then 1 else 0) (e : SaveEvent) :
    (saveStep st e).scheduled = if (saveStep st e).pending then 1 else 0 := by
  cases e with
  | save =>
    by_cases hp : st.pending
    · simp [saveStep, hp, h]
    · simp [saveStep, hp, h]
  | fire =>
    by_cases hs : st.scheduled = 0
    · have hp : st.pending = false := by
        cases hpv : st.pending
        · rfl
        · rw [h, hpv] at hs
          simp at hs
      simp [saveStep, hs, hp]
    · have hp : st.pending = true := by
        cases hpv : st.pending
        · rw [h, hpv] at hs
          simp at hs
        · rfl
      simp [saveStep, hs, h, hp]

theorem runSave_inv (es : List SaveEvent) :
    (runSave initSave es).scheduled = if (runSave initSave es).pending then 1 else 0 := by
  suffices h : ∀ (l : List SaveEvent) (st : SaveState),
      st.scheduled = (if st.pending then 1 else 0) →
      (runSave st l).scheduled = if (runSave st l).pending then 1 else 0 by
    exact h es initSave rfl
  intro l
  induction l with
  | nil => intro st h; exact h
  | cons e l ih =>
    intro st h
    exact ih (saveStep st e) (saveStep_inv st h e)

theorem runSave_saveFree (mid : List SaveEvent) (st : SaveState)
    (hs : st.scheduled = 0) (hm : SaveEvent.save ∉ mid) :
    (runSave st mid).scheduled = 0 := by
  induction mid generalizing st with
  | nil => exact hs
  | cons e mid ih =>
    cases e with
    | save => exact absurd (by simp) hm
    | fire =>
      have hm' : SaveEvent.save ∉ mid := fun h => hm (by simp [h])
      have : saveStep st .fire = st := by
        simp [saveStep, hs]
      show (runSave (saveStep st .fire) mid).scheduled = 0
      rw [this]
      exact ih st hs hm'

/-- C8: config saving is debounced.  At most one `_do_save_config` timer is
ever outstanding (`scheduled ≤ 1`): `save_config` arms one only when
`_pending_config_save` is false and sets the flag, calls made while it is
true are no-ops, and `_do_save_config` clears the flag before writing.
Consequently, once a write has fired, no later `fire` writes again until a
fresh `save_config` call occurs. -/
theorem save_config_debounced (pre mid : List SaveEvent)
    (h1 : fireWrites (runSave initSave pre) = true)
    (h2 : SaveEvent.save ∉ mid) :
    (runSave initSave pre).scheduled ≤ 1
    ∧ fireWrites (runSave (saveStep (runSave initSave pre) SaveEvent.fire) mid) = false := by
  have hinv := runSave_inv pre
  constructor
  · rw [hinv]
    by_cases hp : (runSave initSave pre).pending <;> simp [hp]
  · have hw : (runSave initSave pre).scheduled ≠ 0 := by
      simpa [fireWrites] using h1
    have hafter : (saveStep (runSave initSave pre) SaveEvent.fire).scheduled = 0 := by
      simp only [saveStep, hw, if_neg, if_false]
      rw [hinv] at hw ⊢
      by_cases hp : (runSave initSave pre).pending
      · simp [hp]
      · simp [hp] at hw
    have := runSave_saveFree mid _ hafter h2
    simp [fireWrites, this]

theorem save_config_debounced_witness :
    (runSave initSave [SaveEvent.save]).scheduled ≤ 1
    ∧ fireWrites (runSave (saveStep (runSave initSave [SaveEvent.save]) SaveEvent.fire) [])
        = false :=
  save_config_debounced [SaveEvent.save] [] (by decide) (by simp)

/-- Floor of the base-2 logarithm by structural halving (the fuel `n`
always suffices). -/
def log2fuel : ℕ → ℕ → ℕ
| 0, _ => 0
| fuel+1, n => if n ≤ 1 then 0 else log2fuel fuel (n / 2) + 1

/-- Ceiling of the base-2 logarithm: smallest `m` with `t ≤ 2 ^ m`. -/
def clog2fuel : ℕ → ℕ → ℕ
| 0, _ => 0
| fuel+1, t => if t ≤ 1 then 0 else clog2fuel fuel ((t + 1) / 2) + 1

def natLog2 (n : ℕ) : ℕ := log2fuel n n

def natClog2 (n : ℕ) : ℕ := clog2fuel n n

/-- `⌊log₂ q⌋` for a positive rational `a / b`: for `q ≥ 1` this is
`⌊log₂ ⌊a / b⌋⌋`, and for `q < 1` it is `-(smallest m with b ≤ a·2^m)`. -/
def log2floorQ (q : ℚ) : ℤ :=
  if q ≤ 0 then 0
  else
    let a := q.num.toNat
    let b := q.den
    if b ≤ a then (natLog2 (a / b) : ℤ)
    else -((natClog2 ((b + a - 1) / a) : ℕ) : ℤ)

def pow2z (z : ℤ) : ℚ :=
  if 0 ≤ z then ((2 ^ z.toNat : ℕ) : ℚ) else 1 / ((2 ^ (-z).toNat : ℕ) : ℚ)

/-- Round a positive rational in the binary64 normal range to the nearest
IEEE-754 double (round half to even, like Python's `round`): scale to a
53-bit significand, round, scale back. -/
def roundDoublePos (q : ℚ) : ℚ :=
  let e := log2floorQ q
  ((pyRound (q * pow2z (52 - e)) : ℤ) : ℚ) * pow2z (e - 52)

/-- Correctly rounded conversion of an exact rational to binary64, for the
magnitudes arising here (no overflow or subnormals). -/
def roundDouble (q : ℚ) : ℚ :=
  if q = 0 then 0
  else if q < 0 then -(roundDoublePos (-q)) else roundDoublePos q

/-- IEEE-754 double multiplication: the exact product, correctly rounded. -/
def dmul (x y : ℚ) : ℚ := roundDouble (x * y)

/-- IEEE-754 double division: the exact quotient, correctly rounded. -/
def ddiv (x y : ℚ) : ℚ := roundDouble (x / y)

/-- `on_hardness_slider_changed` (line 428): `internal_value = value / 100.0`
in double arithmetic (`value` is an exact small integer). -/
def hardnessInternal (n : ℕ) : ℚ := ddiv (n : ℚ) 100

/-- `_update_hardness_slider` (line 417): `display_value = int(h * 100.0)`
in double arithmetic. -/
def hardnessDisplay (h : ℚ) : ℤ := pyTrunc (dmul h 100)

/-- The display-scale round trip of C9. -/
def hardnessRoundTrip (n : ℕ) : ℤ := hardnessDisplay (hardnessInternal n)

unseal Rat.mul Rat.inv Rat.add Rat.sub in
/-- C9 fails on the code: at slider value 29 the conversion chain
`int((29 / 100.0) * 100.0)` yields 28 under IEEE-754 double arithmetic
(`0.29 * 100 = 28.999999999999996…`, and `int` truncates), so the hardness
set from the slider is mirrored back as 28 %, not 29 % (the same drift
occurs at 57 and 58; every other value in 0..100, such as 50, round-trips
exactly, which is clearly the code's intent). -/
theorem hardness_display_drift :
    hardnessRoundTrip 29 = 28 ∧ hardnessRoundTrip 50 = 50 := by
  constructor <;> decide

end TwoBrushSliders
